import Mathlib

/-!
# Field Extraction Merge Engine — verification development

Shallow embedding of the AI-document-extraction repository's core
subsystems.  The repository ships a React frontend (`FileUpload.js`,
`ResultDisplay.js`) whose relevant functions are embedded directly from
the JavaScript source.  The backend merge engine
(`utils/contract_extractor.py` and friends) is referenced by the
repository's READMEs but its source is not part of the checkout, so its
data model and operations are modelled from the specification text and
each such definition says so in its doc comment.
-/

namespace Extraction

/-- Modelled from the spec: `DocumentType: enum {invoice, contract}` (§3).
The backend module defining the enum is missing from the checkout. -/
inductive DocumentType where
  | invoice
  | contract
  deriving DecidableEq, Repr

/-- Modelled from the spec: a `PartialRecord` maps flat field names to raw
extracted values and, for contracts, section names to nested key/value
mappings (§3).  Absence of a key models the `absent` sentinel.  The
backend definition is missing from the checkout. -/
structure PartialRecord where
  flat : List (String × String)
  sections : List (String × List (String × String))
  deriving DecidableEq, Repr

/-- Flat-field lookup on a partial record: `none` is `absent`. -/
def PartialRecord.getFlat (r : PartialRecord) (f : String) : Option String :=
  r.flat.lookup f

/-- Section lookup on a partial record: `none` is `absent`. -/
def PartialRecord.getSection (r : PartialRecord) (s : String) :
    Option (List (String × String)) :=
  r.sections.lookup s

/-- Modelled from the spec: the flat canonical schema per document type
(§6): invoices have the eleven flat fields, contracts the three flat
fields; the backend schema tables are missing from the checkout. -/
def schemaFields : DocumentType → List String
  | .invoice =>
      ["invoice_number", "supplier_name", "invoice_date", "total_amount",
       "vat_amount", "payment_due_date", "purchase_order", "tax_id",
       "billing_address", "payment_terms", "line_items"]
  | .contract => ["contract_number", "effective_date", "expiration_date"]

/-- Modelled from the spec: the contract nested section names (§3, §4.4
rule 2); the backend schema tables are missing from the checkout. -/
def sectionNames : List String :=
  ["entities", "terms_and_conditions", "signatures"]

/-- Split a character list into maximal whitespace-free words; `acc`
holds the characters of the word being read, in reverse. -/
def wordsAux : List Char → List Char → List (List Char)
  | [], acc => if acc.isEmpty then [] else [acc.reverse]
  | c :: cs, acc =>
    if c.isWhitespace then
      if acc.isEmpty then wordsAux cs [] else acc.reverse :: wordsAux cs []
    else wordsAux cs (c :: acc)

/-- Modelled from the spec: the `identifier`/`text` normalizer "trims
whitespace, collapses internal runs of whitespace, rejects
empty-after-trim as `absent`" (§4.3).  The backend normalizer code is
missing from the checkout. -/
def normalizeText (s : String) : Option String :=
  match wordsAux s.toList [] with
  | [] => none
  | ws => some (String.mk (List.intercalate [' '] ws))

/-- A raw value is blank when it is empty after normalization, i.e. it
consists of whitespace only. -/
def isBlank (s : String) : Bool :=
  (normalizeText s).isNone

/-- Modelled from the spec: Merge Resolver per-field rule (§4.4 rules 1
and 4): take the AI value when present and non-empty after
normalization; an empty/whitespace-only AI value counts as absent;
otherwise fall back to the normalized regex value; otherwise absent.
The backend merge code is missing from the checkout. -/
def resolveField (ai rx : PartialRecord) (f : String) : Option String :=
  match ai.getFlat f with
  | some v => if isBlank v then (rx.getFlat f).bind normalizeText else some v
  | none => (rx.getFlat f).bind normalizeText

/-- Build the flat portion of the canonical record by processing the
given field names in order; a field resolving to `absent` is omitted
from the association list entirely. -/
def mergeFlatOver (order : List String) (ai rx : PartialRecord) :
    List (String × String) :=
  order.filterMap (fun f => (resolveField ai rx f).map (fun v => (f, v)))

/-- Modelled from the spec: leaf-level merge inside one nested section,
"merge key-by-key within each section using the same
AI-first-then-regex rule per leaf key" (§4.4 rule 2).  Keys of the AI
side come first, then regex-only keys.  The backend merge code is
missing from the checkout. -/
def mergeLeaves (a r : List (String × String)) : List (String × String) :=
  let keys := (a.map Prod.fst) ++ ((r.map Prod.fst).filter (fun k => ¬ (a.map Prod.fst).contains k))
  keys.filterMap (fun k =>
    (resolveField ⟨a, []⟩ ⟨r, []⟩ k).map (fun v => (k, v)))

/-- Modelled from the spec: nested-section merge rule for one section
(§4.4 rule 2): a section present in only one source is carried through
unchanged; a section absent in both sources is omitted entirely; a
section present in both is merged leaf-by-leaf.  The backend merge
code is missing from the checkout. -/
def resolveSection (ai rx : PartialRecord) (s : String) :
    Option (List (String × String)) :=
  match ai.getSection s, rx.getSection s with
  | none, none => none
  | some a, none => some a
  | none, some r => some r
  | some a, some r => some (mergeLeaves a r)

/-- Modelled from the spec: the nested-section pass of the Merge Resolver
(§4.4 rule 2), applied over the contract section names; invoices have
no nested sections.  The backend merge code is missing from the
checkout. -/
def mergeSections (dt : DocumentType) (ai rx : PartialRecord) :
    List (String × List (String × String)) :=
  match dt with
  | .invoice => []
  | .contract =>
      sectionNames.filterMap (fun s =>
        (resolveSection ai rx s).map (fun v => (s, v)))

/-- Modelled from the spec: the `CanonicalRecord` (§3, §6): flat schema
fields, nested sections (contracts), and AI extras passed through
(§4.4 rule 3), kept apart from resolved schema fields so they can
never overwrite them.  The backend record type is missing from the
checkout. -/
structure CanonicalRecord where
  documentType : DocumentType
  flat : List (String × String)
  sections : List (String × List (String × String))
  extras : List (String × String)
  deriving DecidableEq, Repr

/-- Modelled from the spec: the Merge Resolver (§4.4): a single
deterministic pass over the schema for `document_type`, AI-first with
regex fallback per flat field, nested merge for contract sections, AI
fields outside the schema passed through as extras.  The backend merge
code is missing from the checkout. -/
def mergeResolve (dt : DocumentType) (ai rx : PartialRecord) : CanonicalRecord :=
  { documentType := dt
    flat := mergeFlatOver (schemaFields dt) ai rx
    sections := mergeSections dt ai rx
    extras := ai.flat.filter (fun p => ¬ (schemaFields dt).contains p.1) }

/-- Canonical-record flat-field lookup. -/
def CanonicalRecord.getFlat (c : CanonicalRecord) (f : String) : Option String :=
  c.flat.lookup f

/-- Canonical-record section lookup. -/
def CanonicalRecord.getSection (c : CanonicalRecord) (s : String) :
    Option (List (String × String)) :=
  c.sections.lookup s

/-- A sample AI partial record for an invoice. -/
def aiInvoice : PartialRecord :=
  ⟨[("invoice_number", "INV-2023-4721"), ("supplier_name", "   ")], []⟩

/-- A sample regex partial record for an invoice. -/
def rxInvoice : PartialRecord :=
  ⟨[("invoice_number", "REGEX-0001"), ("supplier_name", " Acme   Corp ")], []⟩

/-- A sample AI partial record for a contract: only `contract_number`
and the `entities` section. -/
def aiContract : PartialRecord :=
  ⟨[("contract_number", "CTR-2024-0157")],
   [("entities", [("client", "X Corp")])]⟩

/-- A sample regex partial record for a contract: only the
`terms_and_conditions` section. -/
def rxContract : PartialRecord :=
  ⟨[], [("terms_and_conditions", [("payment_terms", "Net 30")])]⟩

/-! ## Safe Group Accessor -/

/-- Modelled from the spec: the typed result of a safe capture-group
read, `Some(value) | Absent` (§4.1, §9).  The backend accessor code is
missing from the checkout. -/
inductive GroupResult where
  | absent
  | value (s : String)
  deriving DecidableEq, Repr

/-- A pattern-match outcome: `none` when the pattern found no match;
otherwise the list of capture groups, a group being `none` when it is
an optional group that captured nothing. -/
abbrev MatchResult := Option (List (Option String))

/-- Modelled from the spec: the Safe Group Accessor (§4.1): given a
match result (or no match) and a group index, return the group's
content or the typed `absent` sentinel; it is a total function, so it
never raises.  The backend accessor code is missing from the
checkout. -/
def safeGroup (m : MatchResult) (idx : Nat) : GroupResult :=
  match m with
  | none => .absent
  | some gs =>
    match gs[idx]? with
    | none => .absent
    | some none => .absent
    | some (some s) => .value s

/-- Modelled from the spec: reading a group through the accessor after
compiling and running a pattern; a pattern string that fails to
compile is `none` and yields `absent` (§4.1).  The regex engine itself
is an external/missing component, so a compiled pattern is modelled as
its induced matching function from text to match result. -/
def safeSearch (compiled : Option (String → MatchResult)) (text : String)
    (idx : Nat) : GroupResult :=
  match compiled with
  | none => .absent
  | some m => safeGroup (m text) idx

/-! ## Field Normalizer: dates and currency -/

/-- The decimal digit character for `n % 10`. -/
def digitChar (n : Nat) : Char :=
  Char.ofNat (48 + n % 10)

/-- Value of a list of decimal digit characters. -/
def digitsToNat (ds : List Char) : Nat :=
  ds.foldl (fun n c => 10 * n + (c.toNat - 48)) 0

/-- Drop leading and trailing whitespace characters. -/
def trimChars (cs : List Char) : List Char :=
  ((cs.dropWhile Char.isWhitespace).reverse.dropWhile Char.isWhitespace).reverse

/-- Split a character list at the first dot: the part before it and,
when a dot occurs, the part after it. -/
def splitAtDot : List Char → List Char × Option (List Char)
  | [] => ([], none)
  | c :: cs =>
    if c = '.' then ([], some cs)
    else
      let (i, f) := splitAtDot cs
      (c :: i, f)

/-- Characters stripped before parsing a currency amount: thousands
separators and currency symbols (§4.3). -/
def currencySymbols : List Char :=
  ['$', '€', '£', ',', ' ']

/-- The number of cents, rounded half-up to two decimal places, of the
amount `(digitsToNat ip) + (digitsToNat fp) / 10 ^ fp.length`. -/
def centsOf (ip fp : List Char) : Nat :=
  let d := 10 ^ fp.length
  (100 * (digitsToNat ip * d + digitsToNat fp) + d / 2) / d

/-- Modelled from the spec: the `currency` normalizer (§4.3): strips
thousands separators and currency symbols, parses the residue as a
decimal number with two-decimal rounding, and returns `absent` (as
`none`) on non-numeric residue; it is total, so it never raises.  The
backend normalizer code is missing from the checkout. -/
def normalizeCurrency (s : String) : Option ℚ :=
  match splitAtDot (s.toList.filter (fun c => ¬ currencySymbols.contains c)) with
  | (ip, none) =>
      if !ip.isEmpty && ip.all Char.isDigit then
        some (((100 * digitsToNat ip : ℕ) : ℚ) / 100)
      else none
  | (ip, some fp) =>
      if !ip.isEmpty && !fp.isEmpty && ip.all Char.isDigit
          && fp.all Char.isDigit then
        some (((centsOf ip fp : ℕ) : ℚ) / 100)
      else none

/-- English month names with their numbers, used by the literal date
format `Month D, YYYY`. -/
def monthNames : List (String × Nat) :=
  [("January", 1), ("February", 2), ("March", 3), ("April", 4),
   ("May", 5), ("June", 6), ("July", 7), ("August", 8),
   ("September", 9), ("October", 10), ("November", 11), ("December", 12)]

/-- Parse the literal format `YYYY-MM-DD` (already ISO). -/
def parseIso : List Char → Option String
  | [y1, y2, y3, y4, '-', m1, m2, '-', d1, d2] =>
      if y1.isDigit && y2.isDigit && y3.isDigit && y4.isDigit
          && m1.isDigit && m2.isDigit && d1.isDigit && d2.isDigit then
        some (String.mk [y1, y2, y3, y4, '-', m1, m2, '-', d1, d2])
      else none
  | _ => none

/-- Parse the literal format `DD/MM/YYYY` into ISO form. -/
def parseDmy : List Char → Option String
  | [d1, d2, '/', m1, m2, '/', y1, y2, y3, y4] =>
      if y1.isDigit && y2.isDigit && y3.isDigit && y4.isDigit
          && m1.isDigit && m2.isDigit && d1.isDigit && d2.isDigit then
        some (String.mk [y1, y2, y3, y4, '-', m1, m2, '-', d1, d2])
      else none
  | _ => none

/-- Parse the literal format `Month D, YYYY` into ISO form. -/
def parseMonthDay (cs : List Char) : Option String :=
  match wordsAux cs [] with
  | [mw, dw, yw] =>
    match monthNames.lookup (String.mk mw) with
    | none => none
    | some mn =>
      match yw with
      | [y1, y2, y3, y4] =>
        if y1.isDigit && y2.isDigit && y3.isDigit && y4.isDigit then
          match dw.getLast? with
          | some ',' =>
            if !dw.dropLast.isEmpty && dw.dropLast.length.ble 2
                && dw.dropLast.all Char.isDigit then
              some (String.mk [y1, y2, y3, y4, '-',
                digitChar (mn / 10), digitChar mn, '-',
                digitChar (digitsToNat dw.dropLast / 10),
                digitChar (digitsToNat dw.dropLast)])
            else none
          | _ => none
        else none
      | _ => none
  | _ => none

/-- Modelled from the spec: the `date` normalizer (§4.3): accepts the
literal formats `Month D, YYYY`, `YYYY-MM-DD` and `DD/MM/YYYY`,
returning a canonical ISO date string, or `absent` (as `none`) when
unparsable; it is total, so it never raises.  The backend normalizer
code is missing from the checkout. -/
def normalizeDate (s : String) : Option String :=
  parseMonthDay (trimChars s.toList) <|> parseIso (trimChars s.toList)
    <|> parseDmy (trimChars s.toList)

/-- Shape check for a canonical ISO date string: ten characters
`DDDD-DD-DD` with `D` a decimal digit. -/
def isIsoShaped (v : String) : Bool :=
  match v.toList with
  | [y1, y2, y3, y4, h1, m1, m2, h2, d1, d2] =>
      y1.isDigit && y2.isDigit && y3.isDigit && y4.isDigit
        && h1 = '-' && m1.isDigit && m2.isDigit && h2 = '-'
        && d1.isDigit && d2.isDigit
  | _ => false

/-! ## Regex Extractor and top-level entry point -/

/-- The suffix of a character list after the first occurrence of the
pattern `pat`, or `none` when `pat` does not occur. -/
def afterSub (pat : List Char) : List Char → Option (List Char)
  | [] => if pat.isEmpty then some [] else none
  | c :: cs =>
    if pat.isPrefixOf (c :: cs) then some (List.drop pat.length (c :: cs))
    else afterSub pat cs

/-- Modelled from the spec: zone scanning (§4.5): the portion of the
document following a known heading/introducer pattern, or `none` when
the pattern fails to match.  The backend zone patterns live in the
missing `utils/contract_extractor.py`. -/
def findZone (heading text : String) : Option String :=
  (afterSub heading.toList text.toList).map String.mk

/-- Modelled from the spec: a labeled leaf-field read inside a zone,
safe-group-gated: the rest of the line after the label, normalized;
absent when the label does not occur or the residue is blank (§4.2,
§4.5).  The backend leaf patterns are missing from the checkout. -/
def extractLabeled (label zone : String) : Option String :=
  match afterSub label.toList zone.toList with
  | none => none
  | some cs => normalizeText (String.mk (cs.takeWhile (fun c => c ≠ '\n')))

/-- Extract the labeled leaves of one section from its zone text; a
leaf that fails to match is omitted. -/
def sectionLeaves (labels : List (String × String)) (zone : String) :
    List (String × String) :=
  labels.filterMap (fun p => (extractLabeled p.2 zone).map (fun v => (p.1, v)))

/-- Modelled from the spec: one nested-section extraction (§4.5): find
the section's zone; when the zone pattern fails to match the whole
section is absent, otherwise the section is built from the zone text
alone.  The backend zone code is missing from the checkout. -/
def extractSection (heading : String) (labels : List (String × String))
    (text : String) : Option (List (String × String)) :=
  (findZone heading text).map (sectionLeaves labels)

/-- The party-introducer pattern opening the party block (§4.5). -/
def partyIntroducer : String := "BETWEEN:"

/-- The section heading opening the terms block (§4.5). -/
def termsHeading : String := "TERMS AND CONDITIONS"

/-- The signature-heading pattern opening the signature block (§4.5). -/
def signatureHeading : String := "SIGNATURES"

/-- Leaf labels read inside the party zone: the provider is the first
line of the zone (empty label matches at the zone start), the client
follows the `AND:` introducer. -/
def partyLabels : List (String × String) :=
  [("service_provider", ""), ("client", "AND:")]

/-- Leaf labels read inside the terms zone. -/
def termsLabels : List (String × String) :=
  [("payment_terms", "PAYMENT TERMS"), ("termination", "TERMINATION")]

/-- Leaf labels read inside the signature zone. -/
def signatureLabels : List (String × String) :=
  [("service_provider", "SERVICE PROVIDER:"), ("client", "CLIENT:"),
   ("date", "Date:")]

/-- Modelled from the spec: the per-section zone extraction map of the
contract Regex Extractor (§4.5).  The backend extractor is missing
from the checkout. -/
def contractSectionResolver (text : String) (s : String) :
    Option (List (String × String)) :=
  if s = "entities" then
    extractSection partyIntroducer partyLabels text
  else if s = "terms_and_conditions" then
    extractSection termsHeading termsLabels text
  else if s = "signatures" then
    extractSection signatureHeading signatureLabels text
  else none

/-- Modelled from the spec: contract flat fields extracted by the Regex
Extractor (§4.5): `contract_number`, `effective_date`,
`expiration_date`.  The backend extractor is missing from the
checkout. -/
def contractFlat (text : String) : List (String × String) :=
  [("contract_number", "CONTRACT NUMBER:"),
   ("effective_date", "EFFECTIVE DATE:"),
   ("expiration_date", "EXPIRATION DATE:")].filterMap
    (fun p => (extractLabeled p.2 text).map (fun v => (p.1, v)))

/-- Modelled from the spec: invoice flat fields extracted by the Regex
Extractor from labeled lines (§4.2, §8).  The backend pattern library
is missing from the checkout. -/
def invoiceFlat (text : String) : List (String × String) :=
  [("invoice_number", "Invoice Number:"),
   ("invoice_date", "Invoice Date:"),
   ("total_amount", "Total Amount:"),
   ("supplier_name", "Supplier:")].filterMap
    (fun p => (extractLabeled p.2 text).map (fun v => (p.1, v)))

/-- Modelled from the spec: the Regex Extractor (§2, §4.5): a
best-effort partial record from raw text, flat for invoices, flat plus
nested sections for contracts.  The backend extractor is missing from
the checkout. -/
def regexExtract (dt : DocumentType) (text : String) : PartialRecord :=
  match dt with
  | .invoice => ⟨invoiceFlat text, []⟩
  | .contract =>
      ⟨contractFlat text,
       sectionNames.filterMap (fun s =>
         (contractSectionResolver text s).map (fun v => (s, v)))⟩

/-- Modelled from the spec: the two fatal error conditions (§7). -/
inductive ExtractError where
  | invalidDocumentType
  | emptyInput
  deriving DecidableEq, Repr

/-- Modelled from the spec: validation of the `document_type` selector
against the closed enum {invoice, contract} (§3, §7). -/
def parseDocumentType (s : String) : Option DocumentType :=
  if s = "invoice" then some .invoice
  else if s = "contract" then some .contract
  else none

/-- Modelled from the spec: the top-level extraction entry point (§7):
an invalid `document_type` or completely empty input text is rejected
before extraction begins with a single explicit error; every other
input yields a best-effort canonical record by merging the AI partial
record with the regex extraction.  The AI collaborator is external, so
its already-materialized partial record is an input.  The backend
entry point is missing from the checkout. -/
def extract (dtStr text : String) (ai : PartialRecord) :
    Except ExtractError CanonicalRecord :=
  match parseDocumentType dtStr with
  | none => .error .invalidDocumentType
  | some dt =>
    if text = "" then .error .emptyInput
    else .ok (mergeResolve dt ai (regexExtract dt text))

end Extraction

namespace Frontend

/-!
## Frontend embedding

These definitions are embedded directly from the JavaScript source in
the checkout: `frontend/src/components/FileUpload.js` and the
`ResultDisplay` component (`renderValue`).
-/

/-- A browser `File` as observed by `FileUpload.js`: its MIME type and
byte size. -/
structure JsFile where
  type : String
  size : Nat
  deriving DecidableEq, Repr

/-- The accepted MIME types of `handleSelectedFile`
(`FileUpload.js:269`). -/
def acceptedTypes : List String :=
  ["application/pdf", "image/jpeg", "image/png", "text/plain"]

/-- The maximum accepted file size in bytes, `10 * 1024 * 1024`
(`FileUpload.js:277`). -/
def maxFileSize : Nat := 10 * 1024 * 1024

/-- The part of the `FileUpload` component state driven by file
selection (`FileUpload.js:249-253`). -/
structure UploadState where
  selectedFile : Option JsFile
  filePreview : Option String
  deriving DecidableEq, Repr

/-- The component's initial state: no file selected, no preview
(`FileUpload.js:249,253`). -/
def initialState : UploadState := ⟨none, none⟩

/-- Embedded from `handleSelectedFile` (`FileUpload.js:267-294`): a
file of unaccepted MIME type, or larger than 10 MB, shows a toast
error and returns without touching the state; otherwise the file
becomes the selected file and a preview is prepared (asynchronously
for images, cleared otherwise).  Returns the new state and the toast
errors shown. -/
def handleSelectedFile (st : UploadState) (file : JsFile) :
    UploadState × List String :=
  if ¬ acceptedTypes.contains file.type then
    (st, ["Please upload a PDF, JPG, PNG, or TXT file"])
  else if file.size > maxFileSize then
    (st, ["File is too large. Maximum size is 10MB"])
  else
    ({ st with
        selectedFile := some file
        filePreview :=
          if ("image/".toList).isPrefixOf file.type.toList then st.filePreview
          else none },
     [])

/-- Embedded from `resetForm` (`FileUpload.js:386-392`): clears the
selected file and preview. -/
def resetForm : UploadState := initialState

/-- Embedded from `processFile` (`FileUpload.js:346-384`): returns
early when no file is selected, otherwise submits the selected file
for extraction; the submitted file is the function's result. -/
def processFileSubmits (st : UploadState) : Option JsFile :=
  st.selectedFile

/-- The two state-changing user interactions of the upload form. -/
inductive UploadEvent where
  | select (f : JsFile)
  | reset
  deriving DecidableEq, Repr

/-- One state transition of the upload form. -/
def stepUpload (st : UploadState) : UploadEvent → UploadState
  | .select f => (handleSelectedFile st f).1
  | .reset => resetForm

/-- The state after a sequence of interactions from the initial
state. -/
def runUpload (evs : List UploadEvent) : UploadState :=
  evs.foldl stepUpload initialState

/-- A file passes the upload gate when its MIME type is accepted and
its size is within the limit. -/
def validFile (f : JsFile) : Bool :=
  acceptedTypes.contains f.type && decide (f.size ≤ maxFileSize)

/-- A JSON value as delivered to `ResultDisplay`; JavaScript numbers
are modelled as integers. -/
inductive JsValue where
  | null
  | undefined
  | str (s : String)
  | num (n : Int)
  | bool (b : Bool)
  | arr (items : List JsValue)
  | obj (fields : List (String × JsValue))
  deriving Repr

/-- The displayable output of `renderValue`: plain text, a bulleted
list, or labeled entries. -/
inductive Rendered where
  | text (s : String)
  | list (items : List Rendered)
  | entries (kvs : List (String × Rendered))
  deriving Repr

/-- The label transformation applied to object keys,
`k.replace(/_/g, ' ')` (`ResultDisplay` line 349). -/
def underscoresToSpaces (k : String) : String :=
  String.mk (k.toList.map (fun c => if c = '_' then ' ' else c))

mutual

/-- Embedded from `renderValue` (`ResultDisplay` lines 319-359): null
and undefined render as `N/A`, strings as themselves, numbers and
booleans via `toString`, the empty array as `None`, non-empty arrays
as a list over their elements, and objects as entries over their
key/value pairs with underscores in keys replaced by spaces. -/
def renderValue : JsValue → Rendered
  | .null => .text "N/A"
  | .undefined => .text "N/A"
  | .str s => .text s
  | .num n => .text (toString n)
  | .bool b => .text (if b then "true" else "false")
  | .arr items => if items.isEmpty then .text "None" else .list (renderList items)
  | .obj fields => .entries (renderEntries fields)

/-- Renders each array element in order (`ResultDisplay` lines
338-343). -/
def renderList : List JsValue → List Rendered
  | [] => []
  | v :: vs => renderValue v :: renderList vs

/-- Renders each object entry in order (`ResultDisplay` lines
345-354). -/
def renderEntries : List (String × JsValue) → List (String × Rendered)
  | [] => []
  | (k, v) :: kvs =>
      (underscoresToSpaces k, renderValue v) :: renderEntries kvs

end

end Frontend

namespace Extraction

/-! ## Association-list lookup lemmas -/

theorem lookup_cons_ne {β : Type} (a k : String) (h : a ≠ k) (v : β)
    (es : List (String × β)) : ((k, v) :: es).lookup a = es.lookup a := by
  have hb : (a == k) = false := by simpa using h
  simp [List.lookup, hb]

theorem lookup_cons_self {β : Type} (a : String) (v : β)
    (es : List (String × β)) : ((a, v) :: es).lookup a = some v := by
  simp [List.lookup]

theorem lookup_eq_none_iff_not_mem_keys {β : Type} (es : List (String × β))
    (a : String) : es.lookup a = none ↔ a ∉ es.map Prod.fst := by
  induction es with
  | nil => simp [List.lookup]
  | cons p es ih =>
    obtain ⟨k, v⟩ := p
    by_cases hak : a = k
    · subst hak
      simp [lookup_cons_self]
    · rw [lookup_cons_ne a k hak, ih]
      simp [hak]

/-- Looking a key up in a list built by resolving each name of `order`
(dropping absent ones) gives the resolved value exactly when the key is
one of the names, provided the names are distinct. -/
theorem lookup_resolved {β : Type} (h : String → Option β)
    (order : List String) (hnd : order.Nodup) (f : String) :
    (order.filterMap (fun g => (h g).map (fun v => (g, v)))).lookup f =
      if f ∈ order then h f else none := by
  induction order with
  | nil => simp
  | cons g gs ih =>
    rw [List.nodup_cons] at hnd
    have ihg := ih hnd.2
    by_cases hfg : f = g
    · subst hfg
      have hnot : f ∉ gs := hnd.1
      cases hv : h f with
      | none =>
        simp only [List.filterMap_cons, hv, Option.map_none']
        rw [ihg, if_neg hnot, if_pos (List.mem_cons_self f gs)]
      | some v =>
        simp only [List.filterMap_cons, hv, Option.map_some']
        rw [lookup_cons_self, if_pos (List.mem_cons_self f gs)]
    · cases hv : h g with
      | none =>
        simp only [List.filterMap_cons, hv, Option.map_none']
        rw [ihg]
        simp [List.mem_cons, hfg]
      | some v =>
        simp only [List.filterMap_cons, hv, Option.map_some']
        rw [lookup_cons_ne f g hfg, ihg]
        simp [List.mem_cons, hfg]

theorem schemaFields_nodup (dt : DocumentType) : (schemaFields dt).Nodup := by
  cases dt <;> decide

theorem sectionNames_nodup : sectionNames.Nodup := by decide

/-- Flat lookup in the merged record reduces to the per-field resolver on
schema fields and to `absent` elsewhere. -/
theorem getFlat_mergeResolve (dt : DocumentType) (ai rx : PartialRecord)
    (f : String) :
    (mergeResolve dt ai rx).getFlat f =
      if f ∈ schemaFields dt then resolveField ai rx f else none :=
  lookup_resolved (resolveField ai rx) (schemaFields dt)
    (schemaFields_nodup dt) f

/-- Section lookup in a merged contract record reduces to the per-section
resolver on declared sections and to `absent` elsewhere. -/
theorem getSection_mergeResolve (ai rx : PartialRecord) (s : String) :
    (mergeResolve .contract ai rx).getSection s =
      if s ∈ sectionNames then resolveSection ai rx s else none :=
  lookup_resolved (resolveSection ai rx) sectionNames sectionNames_nodup s

/-! ## Normalizer lemmas -/

theorem digitChar_isDigit (n : Nat) : (digitChar n).isDigit = true := by
  have hb : ∀ k, k < 10 → (Char.ofNat (48 + k)).isDigit = true := by decide
  exact hb (n % 10) (Nat.mod_lt n (by norm_num))

theorem normalizeCurrency_cents (s : String) (q : ℚ)
    (h : normalizeCurrency s = some q) : ∃ n : ℕ, q = (n : ℚ) / 100 := by
  unfold normalizeCurrency at h
  split at h
  · split at h
    · exact ⟨_, (Option.some.inj h).symm⟩
    · exact absurd h (by simp)
  · split at h
    · exact ⟨_, (Option.some.inj h).symm⟩
    · exact absurd h (by simp)

theorem parseIso_shape (cs : List Char) (v : String)
    (h : parseIso cs = some v) : isIsoShaped v = true := by
  unfold parseIso at h
  split at h
  · split at h
    · rename_i hcond
      rw [← Option.some.inj h]
      simp only [isIsoShaped]
      simp_all
    · exact absurd h (by simp)
  · exact absurd h (by simp)

theorem parseDmy_shape (cs : List Char) (v : String)
    (h : parseDmy cs = some v) : isIsoShaped v = true := by
  unfold parseDmy at h
  split at h
  · split at h
    · rename_i hcond
      rw [← Option.some.inj h]
      simp only [isIsoShaped]
      simp_all
    · exact absurd h (by simp)
  · exact absurd h (by simp)

theorem parseMonthDay_shape (cs : List Char) (v : String)
    (h : parseMonthDay cs = some v) : isIsoShaped v = true := by
  unfold parseMonthDay at h
  split at h
  · split at h
    · exact absurd h (by simp)
    · split at h
      · split at h
        · split at h
          · split at h
            · rename_i hy hcomma hd
              rw [← Option.some.inj h]
              simp only [isIsoShaped]
              simp_all [digitChar_isDigit]
            · exact absurd h (by simp)
          · exact absurd h (by simp)
        · exact absurd h (by simp)
      · exact absurd h (by simp)
  · exact absurd h (by simp)

theorem normalizeDate_shape (s : String) (v : String)
    (h : normalizeDate s = some v) : isIsoShaped v = true := by
  unfold normalizeDate at h
  cases h1 : parseMonthDay (trimChars s.toList) with
  | some w =>
    rw [h1] at h
    simp only [Option.some_orElse] at h
    exact parseMonthDay_shape _ _ (h1.trans h)
  | none =>
    rw [h1] at h
    simp only [Option.none_orElse] at h
    cases h2 : parseIso (trimChars s.toList) with
    | some w =>
      rw [h2] at h
      simp only [Option.some_orElse] at h
      exact parseIso_shape _ _ (h2.trans h)
    | none =>
      rw [h2] at h
      simp only [Option.none_orElse] at h
      exact parseDmy_shape _ _ h

theorem wordsAux_ne_nil :
    ∀ (cs acc : List Char), ∀ w ∈ wordsAux cs acc, w ≠ [] := by
  intro cs
  induction cs with
  | nil =>
    intro acc w hw
    simp only [wordsAux] at hw
    split at hw
    · simp at hw
    · rename_i hacc
      simp only [List.mem_singleton] at hw
      subst hw
      simpa using fun hnil => hacc (by simp [List.isEmpty_iff, ← List.reverse_eq_nil_iff, hnil])
  | cons c cs ih =>
    intro acc w hw
    simp only [wordsAux] at hw
    split at hw
    · split at hw
      · exact ih [] w hw
      · rename_i hacc
        rcases List.mem_cons.mp hw with hw | hw
        · subst hw
          simpa using fun hnil => hacc (by simp [List.isEmpty_iff, ← List.reverse_eq_nil_iff, hnil])
        · exact ih [] w hw
    · exact ih (c :: acc) w hw

theorem normalizeText_ne_empty (s : String) (v : String)
    (h : normalizeText s = some v) : v ≠ "" := by
  unfold normalizeText at h
  split at h
  · exact absurd h (by simp)
  · rename_i hne
    cases hws : wordsAux s.toList [] with
    | nil => exact absurd hws hne
    | cons w rest =>
      rw [hws] at h
      have hw : w ≠ [] := wordsAux_ne_nil s.toList [] w (by rw [hws]; simp)
      have hsplit : ∃ t, List.intercalate [' '] (w :: rest) = w ++ t := by
        cases rest with
        | nil => exact ⟨[], by simp [List.intercalate, List.intersperse]⟩
        | cons r rs =>
          exact ⟨' ' :: (List.intersperse [' '] (r :: rs)).flatten,
            by simp [List.intercalate, List.intersperse]⟩
      obtain ⟨t, ht⟩ := hsplit
      rw [← Option.some.inj h]
      intro hcontra
      have h2 : (String.mk (List.intercalate [' '] (w :: rest))).data =
          ("" : String).data := congrArg String.data hcontra
      rw [ht] at h2
      simp at h2
      exact hw h2.1

theorem extract_eq_invalid (dtStr text : String) (ai : PartialRecord)
    (hp : parseDocumentType dtStr = none) :
    extract dtStr text ai = .error .invalidDocumentType := by
  unfold extract
  rw [hp]

theorem extract_eq_valid (dtStr text : String) (ai : PartialRecord)
    (dt : DocumentType) (hp : parseDocumentType dtStr = some dt) :
    extract dtStr text ai =
      if text = "" then .error .emptyInput
      else .ok (mergeResolve dt ai (regexExtract dt text)) := by
  unfold extract
  rw [hp]

/-! ## Claim theorems -/

/-- C1: for every flat field of the canonical schema for the document
type, if the AI partial record holds a value that is non-empty after
normalization, the canonical record's value for that field equals the
AI value, regardless of what the regex partial record holds. -/
theorem claim_ai_precedence (dt : DocumentType) (ai rx : PartialRecord)
    (f v : String) (hf : f ∈ schemaFields dt)
    (hai : ai.getFlat f = some v) (hnb : isBlank v = false) :
    (mergeResolve dt ai rx).getFlat f = some v := by
  rw [getFlat_mergeResolve, if_pos hf]
  simp [resolveField, hai, hnb]

theorem claim_ai_precedence_witness :
    (mergeResolve .invoice aiInvoice rxInvoice).getFlat "invoice_number" =
      some "INV-2023-4721" :=
  claim_ai_precedence .invoice aiInvoice rxInvoice "invoice_number"
    "INV-2023-4721" (by decide) (by decide) (by decide)

/-- C2: for every schema field, if the AI value is absent — including
present but empty/whitespace-only, which counts as absent — and the
regex record holds a value, the canonical value equals the normalized
regex value. -/
theorem claim_regex_fallback (dt : DocumentType) (ai rx : PartialRecord)
    (f w : String) (hf : f ∈ schemaFields dt)
    (hai : ai.getFlat f = none ∨ ∃ v, ai.getFlat f = some v ∧ isBlank v = true)
    (hrx : rx.getFlat f = some w) :
    (mergeResolve dt ai rx).getFlat f = normalizeText w := by
  rw [getFlat_mergeResolve, if_pos hf]
  rcases hai with h | ⟨v, hv, hb⟩
  · simp [resolveField, h, hrx]
  · simp [resolveField, hv, hb, hrx]

theorem claim_regex_fallback_witness :
    (mergeResolve .invoice aiInvoice rxInvoice).getFlat "supplier_name" =
      some "Acme Corp" := by
  have h := claim_regex_fallback .invoice aiInvoice rxInvoice "supplier_name"
    " Acme   Corp " (by decide) (Or.inr ⟨"   ", by decide, by decide⟩) (by decide)
  rw [h]; decide

/-- C5: a schema field absent in both partial records is omitted from
the canonical record's flat association list entirely; a contract
section absent in both sources is omitted from the output, while a
section present in only one source is carried through unchanged. -/
theorem claim_both_absent_omission (ai rx : PartialRecord) :
    (∀ dt f, f ∈ schemaFields dt → ai.getFlat f = none → rx.getFlat f = none →
        f ∉ (mergeResolve dt ai rx).flat.map Prod.fst) ∧
    (∀ s, s ∈ sectionNames →
        (ai.getSection s = none → rx.getSection s = none →
          s ∉ (mergeResolve .contract ai rx).sections.map Prod.fst) ∧
        (∀ a, ai.getSection s = some a → rx.getSection s = none →
          (mergeResolve .contract ai rx).getSection s = some a) ∧
        (∀ r, ai.getSection s = none → rx.getSection s = some r →
          (mergeResolve .contract ai rx).getSection s = some r)) := by
  constructor
  · intro dt f _ hai hrx
    rw [← lookup_eq_none_iff_not_mem_keys]
    have : (mergeResolve dt ai rx).getFlat f = none := by
      rw [getFlat_mergeResolve]
      simp [resolveField, hai, hrx]
    exact this
  · intro s hs
    refine ⟨?_, ?_, ?_⟩
    · intro hai hrx
      rw [← lookup_eq_none_iff_not_mem_keys]
      have : (mergeResolve .contract ai rx).getSection s = none := by
        rw [getSection_mergeResolve, if_pos hs, resolveSection, hai, hrx]
      exact this
    · intro a hai hrx
      rw [getSection_mergeResolve, if_pos hs, resolveSection, hai, hrx]
    · intro r hai hrx
      rw [getSection_mergeResolve, if_pos hs, resolveSection, hai, hrx]

theorem claim_both_absent_omission_witness :
    ("tax_id" ∉ (mergeResolve .invoice aiInvoice rxInvoice).flat.map Prod.fst) ∧
    ("signatures" ∉
        (mergeResolve .contract aiContract rxContract).sections.map Prod.fst) ∧
    (mergeResolve .contract aiContract rxContract).getSection "entities" =
      some [("client", "X Corp")] ∧
    (mergeResolve .contract aiContract rxContract).getSection
        "terms_and_conditions" = some [("payment_terms", "Net 30")] := by
  refine ⟨?_, ?_, ?_, ?_⟩
  · exact (claim_both_absent_omission aiInvoice rxInvoice).1 .invoice "tax_id"
      (by decide) (by decide) (by decide)
  · exact ((claim_both_absent_omission aiContract rxContract).2 "signatures"
      (by decide)).1 (by decide) (by decide)
  · exact ((claim_both_absent_omission aiContract rxContract).2 "entities"
      (by decide)).2.1 [("client", "X Corp")] (by decide) (by decide)
  · exact ((claim_both_absent_omission aiContract rxContract).2
      "terms_and_conditions" (by decide)).2.2 [("payment_terms", "Net 30")]
      (by decide) (by decide)

/-- C6: the only fatal conditions are an invalid `document_type` and
completely empty input text, each rejected before extraction with a
single explicit top-level error; for every other input the caller
receives a best-effort canonical record from the merge — the function
is total, so no exception can escape mid-merge. -/
theorem claim_fatal_error_discipline (dtStr text : String) (ai : PartialRecord) :
    (∀ e, extract dtStr text ai = .error e ↔
        (e = .invalidDocumentType ∧ parseDocumentType dtStr = none) ∨
        (e = .emptyInput ∧ (∃ dt, parseDocumentType dtStr = some dt) ∧
          text = "")) ∧
    (∀ dt, parseDocumentType dtStr = some dt → text ≠ "" →
      extract dtStr text ai = .ok (mergeResolve dt ai (regexExtract dt text))) := by
  constructor
  · intro e
    constructor
    · intro h
      cases hp : parseDocumentType dtStr with
      | none =>
        rw [extract_eq_invalid dtStr text ai hp] at h
        simp only [Except.error.injEq] at h
        exact Or.inl ⟨h.symm, rfl⟩
      | some dt =>
        rw [extract_eq_valid dtStr text ai dt hp] at h
        by_cases ht : text = ""
        · rw [if_pos ht] at h
          simp only [Except.error.injEq] at h
          exact Or.inr ⟨h.symm, ⟨dt, rfl⟩, ht⟩
        · rw [if_neg ht] at h
          exact absurd h (by simp)
    · intro h
      rcases h with ⟨he, hp⟩ | ⟨he, ⟨dt, hp⟩, ht⟩
      · subst he
        exact extract_eq_invalid dtStr text ai hp
      · subst he
        rw [extract_eq_valid dtStr text ai dt hp, if_pos ht]
  · intro dt hp ht
    rw [extract_eq_valid dtStr text ai dt hp, if_neg ht]

theorem claim_fatal_error_discipline_witness :
    extract "contract" "CONTRACT NUMBER: CTR-1" aiContract =
      .ok (mergeResolve .contract aiContract
        (regexExtract .contract "CONTRACT NUMBER: CTR-1")) :=
  (claim_fatal_error_discipline "contract" "CONTRACT NUMBER: CTR-1"
    aiContract).2 .contract (by decide) (by decide)

/-- C7: contract zone extraction is all-or-nothing: for every contract
text and each nested section, if the section's zone pattern fails to
match then the whole section is absent from the regex partial record,
and when the zone does match the section is computed from the zone
text alone — never a mixture. -/
theorem claim_zone_all_or_nothing (text : String) :
    (findZone partyIntroducer text = none →
      (regexExtract .contract text).getSection "entities" = none) ∧
    (∀ z, findZone partyIntroducer text = some z →
      (regexExtract .contract text).getSection "entities" =
        some (sectionLeaves partyLabels z)) ∧
    (findZone termsHeading text = none →
      (regexExtract .contract text).getSection "terms_and_conditions" = none) ∧
    (∀ z, findZone termsHeading text = some z →
      (regexExtract .contract text).getSection "terms_and_conditions" =
        some (sectionLeaves termsLabels z)) ∧
    (findZone signatureHeading text = none →
      (regexExtract .contract text).getSection "signatures" = none) ∧
    (∀ z, findZone signatureHeading text = some z →
      (regexExtract .contract text).getSection "signatures" =
        some (sectionLeaves signatureLabels z)) := by
  have hsec : ∀ s, (regexExtract .contract text).getSection s =
      if s ∈ sectionNames then contractSectionResolver text s else none :=
    fun s => lookup_resolved (contractSectionResolver text) sectionNames
      sectionNames_nodup s
  refine ⟨?_, ?_, ?_, ?_, ?_, ?_⟩
  · intro h
    rw [hsec, if_pos (by decide), contractSectionResolver, if_pos rfl]
    simp [extractSection, h]
  · intro z h
    rw [hsec, if_pos (by decide), contractSectionResolver, if_pos rfl]
    simp [extractSection, h]
  · intro h
    rw [hsec, if_pos (by decide), contractSectionResolver,
      if_neg (by decide), if_pos rfl]
    simp [extractSection, h]
  · intro z h
    rw [hsec, if_pos (by decide), contractSectionResolver,
      if_neg (by decide), if_pos rfl]
    simp [extractSection, h]
  · intro h
    rw [hsec, if_pos (by decide), contractSectionResolver,
      if_neg (by decide), if_neg (by decide), if_pos rfl]
    simp [extractSection, h]
  · intro z h
    rw [hsec, if_pos (by decide), contractSectionResolver,
      if_neg (by decide), if_neg (by decide), if_pos rfl]
    simp [extractSection, h]

theorem claim_zone_all_or_nothing_witness :
    (regexExtract .contract "BETWEEN: A\nAND: B\n").getSection
      "signatures" = none ∧
    (regexExtract .contract "BETWEEN: A\nAND: B\n").getSection "entities" =
      some (sectionLeaves partyLabels " A\nAND: B\n") :=
  ⟨(claim_zone_all_or_nothing "BETWEEN: A\nAND: B\n").2.2.2.2.1 (by decide),
   (claim_zone_all_or_nothing "BETWEEN: A\nAND: B\n").2.1 " A\nAND: B\n"
     (by decide)⟩

/-- C8: the Merge Resolver is deterministic — re-running it on the same
inputs yields the identical canonical record — and order-independent:
building the flat portion by processing the schema fields in any order
yields the identical record as a key-to-value map. -/
theorem claim_merge_deterministic (dt : DocumentType) (ai rx : PartialRecord) :
    mergeResolve dt ai rx = mergeResolve dt ai rx ∧
    (∀ order : List String, order.Perm (schemaFields dt) →
      ∀ f, (mergeFlatOver order ai rx).lookup f =
        (mergeResolve dt ai rx).getFlat f) := by
  refine ⟨rfl, ?_⟩
  intro order hperm f
  have hnd : order.Nodup := hperm.symm.nodup (schemaFields_nodup dt)
  have h1 : (mergeFlatOver order ai rx).lookup f =
      if f ∈ order then resolveField ai rx f else none :=
    lookup_resolved (resolveField ai rx) order hnd f
  rw [h1, getFlat_mergeResolve]
  by_cases hf : f ∈ order
  · rw [if_pos hf, if_pos (hperm.mem_iff.mp hf)]
  · rw [if_neg hf, if_neg (fun hc => hf (hperm.mem_iff.mpr hc))]

/-- C3: the Safe Group Accessor is a total function (so it never
raises) and yields the typed `absent` sentinel in every degenerate
case: no match found, group index out of range, an optional group that
captured nothing, a pattern string that failed to compile, and — for
any pattern and any text the pattern does not match — a non-matching
input. -/
theorem claim_safe_group_accessor :
    (∀ idx, safeGroup none idx = .absent) ∧
    (∀ (gs : List (Option String)) idx, gs.length ≤ idx →
      safeGroup (some gs) idx = .absent) ∧
    (∀ (gs : List (Option String)) idx, gs[idx]? = some none →
      safeGroup (some gs) idx = .absent) ∧
    (∀ text idx, safeSearch none text idx = .absent) ∧
    (∀ (m : String → MatchResult) text idx, m text = none →
      safeSearch (some m) text idx = .absent) := by
  refine ⟨fun _ => rfl, ?_, ?_, fun _ _ => rfl, ?_⟩
  · intro gs idx h
    simp [safeGroup, List.getElem?_eq_none h]
  · intro gs idx h
    simp [safeGroup, h]
  · intro m text idx h
    simp [safeSearch, safeGroup, h]

theorem claim_safe_group_accessor_witness :
    safeGroup (some [some "a", none]) 5 = .absent ∧
    safeGroup (some [some "a", none]) 1 = .absent ∧
    safeSearch (some fun _ => none) "no match here" 0 = .absent :=
  ⟨claim_safe_group_accessor.2.1 [some "a", none] 5 (by decide),
   claim_safe_group_accessor.2.2.1 [some "a", none] 1 (by decide),
   claim_safe_group_accessor.2.2.2.2 (fun _ => none) "no match here" 0 rfl⟩

/-- C4: the currency normalizer maps `"2,500.00"` to the numeric value
`2500.00`, the date normalizer maps `"April 1, 2024"` to
`"2024-04-01"`, and each normalizer is a total function (so it never
raises) whose successful outputs are well-formed: every currency
output is an exact multiple of one hundredth (two-decimal value),
every date output is a ten-character ISO `YYYY-MM-DD` string, and
every text-normalizer output is non-empty; a failed normalization
yields the absent sentinel `none` instead of a malformed value. -/
theorem claim_field_normalizers :
    normalizeCurrency "2,500.00" = some 2500 ∧
    normalizeDate "April 1, 2024" = some "2024-04-01" ∧
    (∀ s q, normalizeCurrency s = some q → ∃ n : ℕ, q = (n : ℚ) / 100) ∧
    (∀ s v, normalizeDate s = some v → isIsoShaped v = true) ∧
    (∀ s v, normalizeText s = some v → v ≠ "") := by
  refine ⟨?_, by decide, normalizeCurrency_cents, normalizeDate_shape,
    normalizeText_ne_empty⟩
  have h : normalizeCurrency "2,500.00" = some (((250000 : ℕ) : ℚ) / 100) := by
    rfl
  rw [h]
  norm_num

theorem claim_field_normalizers_witness :
    (∃ n : ℕ, (((750 : ℕ) : ℚ) / 100) = (n : ℚ) / 100) ∧
    isIsoShaped "2025-03-31" = true ∧
    ("hello world" : String) ≠ "" :=
  ⟨claim_field_normalizers.2.2.1 "7.5" (((750 : ℕ) : ℚ) / 100) (by rfl),
   claim_field_normalizers.2.2.2.1 "31/03/2025" "2025-03-31" (by decide),
   claim_field_normalizers.2.2.2.2 "  hello   world " "hello world" (by decide)⟩

theorem claim_merge_deterministic_witness :
    (mergeFlatOver ["expiration_date", "effective_date", "contract_number"]
        aiContract rxContract).lookup "contract_number" =
      (mergeResolve .contract aiContract rxContract).getFlat "contract_number" :=
  (claim_merge_deterministic .contract aiContract rxContract).2
    ["expiration_date", "effective_date", "contract_number"] (by decide)
    "contract_number"

end Extraction

namespace Frontend

/-! ## Frontend claim theorems -/

theorem upload_gate_invariant (evs : List UploadEvent) :
    ∀ st : UploadState,
      (∀ f, st.selectedFile = some f → validFile f = true) →
      ∀ f, (evs.foldl stepUpload st).selectedFile = some f →
        validFile f = true := by
  induction evs with
  | nil => intro st h; exact h
  | cons e evs ih =>
    intro st h
    simp only [List.foldl_cons]
    apply ih
    cases e with
    | reset =>
      intro f hf
      simp [stepUpload, resetForm, initialState] at hf
    | select file =>
      intro f hf
      by_cases h1 : file.type ∈ acceptedTypes
      · by_cases h2 : file.size > maxFileSize
        · simp [stepUpload, handleSelectedFile, h1, h2] at hf
          exact h f hf
        · simp [stepUpload, handleSelectedFile, h1, h2] at hf
          subst hf
          simp [validFile, h1, Nat.not_lt.mp h2]
      · simp [stepUpload, handleSelectedFile, h1] at hf
        exact h f hf

/-- C9: a file whose MIME type is not accepted or whose size exceeds
10485760 bytes makes `handleSelectedFile` return after showing an
error, leaving the selected-file state unchanged; consequently, over
any sequence of interactions, `processFile` only ever submits a file
that passed both checks — an invalid file is never submitted. -/
theorem claim_upload_gate :
    (∀ (st : UploadState) (file : JsFile),
      (acceptedTypes.contains file.type = false ∨ file.size > maxFileSize) →
      (handleSelectedFile st file).1 = st ∧
      (handleSelectedFile st file).2 ≠ []) ∧
    (∀ (evs : List UploadEvent) (f : JsFile),
      processFileSubmits (runUpload evs) = some f → validFile f = true) := by
  constructor
  · intro st file hbad
    by_cases h1 : file.type ∈ acceptedTypes
    · have hsz : file.size > maxFileSize := by
        rcases hbad with hb | hb
        · have hc : acceptedTypes.contains file.type = true := by
            simpa using h1
          rw [hc] at hb
          exact Bool.noConfusion hb
        · exact hb
      constructor
      · simp [handleSelectedFile, h1, hsz]
      · simp [handleSelectedFile, h1, hsz]
    · constructor
      · simp [handleSelectedFile, h1]
      · simp [handleSelectedFile, h1]
  · intro evs f hf
    exact upload_gate_invariant evs initialState (by intro f hf; simp [initialState] at hf)
      f hf

theorem claim_upload_gate_witness :
    ((handleSelectedFile ⟨none, none⟩ ⟨"application/zip", 100⟩).1 =
        (⟨none, none⟩ : UploadState) ∧
      (handleSelectedFile ⟨none, none⟩ ⟨"application/zip", 100⟩).2 ≠ []) ∧
    validFile ⟨"application/pdf", 5⟩ = true :=
  ⟨claim_upload_gate.1 ⟨none, none⟩ ⟨"application/zip", 100⟩ (Or.inl (by decide)),
   claim_upload_gate.2 [.select ⟨"application/pdf", 5⟩] ⟨"application/pdf", 5⟩
     (by decide)⟩

/-- C10: `renderValue` is a total function over JSON-representable
values (so it cannot throw): null and undefined render as `N/A`, the
empty array as `None`, strings as themselves, numbers and booleans as
their string form, and non-empty arrays and objects by structural
recursion over their elements and entries. -/
theorem claim_render_total :
    renderValue .null = .text "N/A" ∧
    renderValue .undefined = .text "N/A" ∧
    (∀ s, renderValue (.str s) = .text s) ∧
    (∀ n, renderValue (.num n) = .text (toString n)) ∧
    (∀ b, renderValue (.bool b) = .text (if b then "true" else "false")) ∧
    renderValue (.arr []) = .text "None" ∧
    (∀ v vs, renderValue (.arr (v :: vs)) =
      .list (renderValue v :: renderList vs)) ∧
    (∀ kvs, renderValue (.obj kvs) = .entries (renderEntries kvs)) ∧
    (∀ k v kvs, renderEntries ((k, v) :: kvs) =
      (underscoresToSpaces k, renderValue v) :: renderEntries kvs) :=
  ⟨rfl, rfl, fun _ => rfl, fun _ => rfl, fun _ => rfl, rfl,
   fun _ _ => by simp [renderValue, renderList],
   fun _ => rfl, fun _ _ _ => by simp [renderEntries]⟩

end Frontend
